import Mathlib

/-!
Verification development for the ardite-core data access layer.

The repository's `value.rs` / `query.rs` modules are not part of the
sources at hand (only their users are), so the plain data carriers
(`Value`, `Query`, `Condition`, `SortRule`, `Range`) are modelled from the
specification's data model (§3).  Everything operational —
`condition_to_filter`, `sort_rules_to_sort`, `query_to_projection`
(src/driver/mongodb.rs), `Schema::get` / `Schema::validate_query`
(src/schema/schema.rs) and `Driver::read_one` (src/driver/driver.rs) — is
translated directly from the Rust sources.
-/

namespace Ardite

/-- Modelled from the spec: `Value` (§3), the backend-neutral data
representation: Null, Boolean, Integer (64-bit signed), Float (64-bit),
String, Array, Object (ordered string-keyed map, keys unique, insertion
order preserved). -/
inductive Value where
  | null
  | boolean (b : Bool)
  | i64 (n : Int)
  | f64 (x : Float)
  | string (s : String)
  | array (xs : List Value)
  | object (fields : List (String × Value))

/-- Modelled from the spec: `Query` (§3): All, or an ordered mapping of
key to sub-query. -/
inductive Query where
  | all
  | keys (m : List (String × Query))

/-- Modelled from the spec: `Condition` (§3): True, False, Not, And, Or,
Equal(Value), Keys (ordered mapping of key to sub-condition). -/
inductive Condition where
  | true
  | false
  | not (c : Condition)
  | and (cs : List Condition)
  | or (cs : List Condition)
  | equal (v : Value)
  | keys (m : List (String × Condition))

/-- Modelled from the spec: `SortRule` (§3) is
`{property : Pointer, descending : Bool}`. -/
structure SortRule where
  property : List String
  descending : Bool

/-- Modelled from the spec: `Range` (§3) is
`{offset : optional Nat, limit : optional Nat}`; the Rust constructor is
`Range::new(skip, limit)`. -/
structure Range where
  skip : Option Nat
  limit : Option Nat

/-- Error codes, from `Code` in src/error.rs. -/
inductive Code where
  | badRequest
  | forbidden
  | notFound
  | methodNotAllowed
  | notAcceptable
  | conflict
  | badRange
  | internal
  | notImplemented
deriving DecidableEq

/-- `Error` from src/error.rs: code, message, optional hint. -/
structure Error where
  code : Code
  message : String
  hint : Option String
deriving DecidableEq

/-- `Error::invalid(message, hint)` from src/error.rs: a `BadRequest`
error carrying a hint. -/
def Error.invalid (message hint : String) : Error :=
  ⟨Code.badRequest, message, some hint⟩

/-- `Error::internal(message)` from src/error.rs. -/
def Error.internal (message : String) : Error :=
  ⟨Code.internal, message, Option.none⟩

/-- A BSON value, as far as the translation functions in
src/driver/mongodb.rs produce one: documents are ordered lists of
string-keyed entries, mirroring the bson crate's insertion-ordered
`Document`. -/
inductive Bson where
  | null
  | boolean (b : Bool)
  | i32 (n : Int)
  | i64 (n : Int)
  | f64 (x : Float)
  | string (s : String)
  | array (xs : List Bson)
  | document (entries : List (String × Bson))

/-- `Document::insert` of the bson crate: replace the value of an
existing key in place, otherwise append the new entry at the end. -/
def docInsert : List (String × Bson) → String → Bson → List (String × Bson)
  | [], key, val => [(key, val)]
  | (k, v) :: rest, key, val =>
    if k = key then (key, val) :: rest else (k, v) :: docInsert rest key val

/-- `pointer.join(".")` used throughout src/driver/mongodb.rs. -/
def joinDot : List String → String
  | [] => ""
  | [k] => k
  | k :: rest => k ++ "." ++ joinDot rest

mutual

/-- `impl Into<Bson> for Value` in src/driver/mongodb.rs.  The
`Value::Object` arm (`Value::Object(object).into()`) resolves `.into()`
to this very impl — unconditional self-recursion that never returns —
so the conversion is partial: the object arm's divergence is modelled
as `Option.none`, and an array diverges with its first diverging
element. -/
def Value.toBson : Value → Option Bson
  | .null => some .null
  | .boolean b => some (.boolean b)
  | .i64 n => some (.i64 n)
  | .f64 x => some (.f64 x)
  | .string s => some (.string s)
  | .object _ => Option.none
  | .array xs =>
    match arrToBson xs with
    | some bs => some (.array bs)
    | Option.none => Option.none

/-- Element-wise conversion used by the `Value::Array` arm
(`array.into_iter().map(Value::into).collect()`); diverges — `none` —
as soon as one element does. -/
def arrToBson : List Value → Option (List Bson)
  | [] => some []
  | v :: rest =>
    match Value.toBson v with
    | some b =>
      match arrToBson rest with
      | some bs => some (b :: bs)
      | Option.none => Option.none
    | Option.none => Option.none

end

mutual

/-- `condition_to_filter` from src/driver/mongodb.rs.  Partial because
the `Equal` arm converts the value through the diverging
`Into<Bson>` impl: `none` models the non-termination reached through an
`Equal` leaf holding an object-containing value, and every composite arm
diverges with its operands. -/
def condition_to_filter : Condition → Option Bson
  | .keys keys =>
    match addKeys [] [] keys with
    | some doc => some (.document doc)
    | Option.none => Option.none
  | .true => some (.document [("$where", .string "true")])
  | .false => some (.document [("$where", .string "false")])
  | .not cond =>
    match condition_to_filter cond with
    | some b => some (.document [("$not", b)])
    | Option.none => Option.none
  | .and conds =>
    match mapFilter conds with
    | some bs => some (.document [("$and", .array bs)])
    | Option.none => Option.none
  | .or conds =>
    match mapFilter conds with
    | some bs => some (.document [("$or", .array bs)])
    | Option.none => Option.none
  | .equal value =>
    match value.toBson with
    | some b => some (.document [("$eq", b)])
    | Option.none => Option.none

/-- `conds.into_iter().map(condition_to_filter).collect()` from the
`And`/`Or` arms of `condition_to_filter`; diverges — `none` — as soon
as one operand does. -/
def mapFilter : List Condition → Option (List Bson)
  | [] => some []
  | c :: rest =>
    match condition_to_filter c with
    | some b =>
      match mapFilter rest with
      | some bs => some (b :: bs)
      | Option.none => Option.none
    | Option.none => Option.none

/-- The inner `add_keys` function of `condition_to_filter`: flatten a
`Condition::Keys` tree into one document with dot-joined paths; diverges
— `none` — as soon as one leaf translation does. -/
def addKeys (doc : List (String × Bson)) (pointer : List String) : List (String × Condition) → Option (List (String × Bson))
  | [] => some doc
  | (key, cond) :: rest =>
    match cond with
    | .keys subKeys =>
      match addKeys doc (pointer ++ [key]) subKeys with
      | some doc2 => addKeys doc2 pointer rest
      | Option.none => Option.none
    | c =>
      match condition_to_filter c with
      | some b => addKeys (docInsert doc (joinDot (pointer ++ [key])) b) pointer rest
      | Option.none => Option.none

end

/-- `query == Query::All` check in `query_to_projection`. -/
def Query.isAll : Query → Bool
  | .all => Bool.true
  | .keys _ => Bool.false

mutual

/-- The inner `add_keys` function of `query_to_projection` from
src/driver/mongodb.rs. -/
def qAddKeys (doc : List (String × Bson)) (pointer : List String) : Query → List (String × Bson)
  | .all => docInsert doc (joinDot pointer) (.i32 1)
  | .keys m => qAddKeysList doc pointer m

/-- The key loop of the `Query::Keys` arm of `add_keys`. -/
def qAddKeysList (doc : List (String × Bson)) (pointer : List String) : List (String × Query) → List (String × Bson)
  | [] => doc
  | (key, sub) :: rest => qAddKeysList (qAddKeys doc (pointer ++ [key]) sub) pointer rest

end

/-- `query_to_projection` from src/driver/mongodb.rs. -/
def query_to_projection (query : Query) : Bson :=
  let doc := docInsert [] "_id" (.i32 0)
  if query.isAll then .document doc else .document (qAddKeys doc [] query)

/-- The loop body of `sort_rules_to_sort` from src/driver/mongodb.rs. -/
def sortInsert (doc : List (String × Bson)) : List SortRule → List (String × Bson)
  | [] => doc
  | rule :: rest =>
    sortInsert (docInsert doc (joinDot rule.property) (.i32 (if rule.descending then -1 else 1))) rest

/-- `sort_rules_to_sort` from src/driver/mongodb.rs. -/
def sort_rules_to_sort (sort_rules : List SortRule) : Bson :=
  .document (sortInsert [] sort_rules)

/-- The `Schema` tree of src/schema/schema.rs, with the trait objects
represented as a sum type (one case per concrete schema struct, carrying
exactly that struct's fields; the `pattern` regex of `SchemaString` is
carried as its source text). -/
inductive Schema where
  | none
  | null
  | boolean
  | number (multipleOf : Option Float) (minimum : Option Float)
      (exclusiveMinimum : Bool) (maximum : Option Float) (exclusiveMaximum : Bool)
  | string (minLength : Option Nat) (maxLength : Option Nat) (patternText : Option String)
  | array (items : Option Schema)
  | object (properties : List (String × Schema)) (required : List String)
      (additionalProperties : Bool)
  | enum (values : List Value)

/-- `INTEGER_RE` of src/schema/schema.rs: the key matches `^\d+$`, i.e. it
is non-empty and every character is a decimal digit. -/
def isIntegerKey (key : String) : Bool :=
  !key.data.isEmpty && key.data.all Char.isDigit

/-- `LinearMap::get` on the `properties` map of `SchemaObject`: first
binding of the key (keys are unique in a `LinearMap`). -/
def lookupProp : List (String × Schema) → String → Option Schema
  | [], _ => Option.none
  | (k, s) :: rest, key => if k = key then some s else lookupProp rest key

/-- The `SchemaPrimitive` marker trait of src/schema/schema.rs:
`SchemaNull`, `SchemaBoolean`, `SchemaNumber`, `SchemaString` and
`SchemaEnum` implement it. -/
def isPrimitive : Schema → Bool
  | .null => Bool.true
  | .boolean => Bool.true
  | .number _ _ _ _ _ => Bool.true
  | .string _ _ _ => Bool.true
  | .enum _ => Bool.true
  | _ => Bool.false

/-- `validate_query` of the blanket `impl Schema for T: SchemaPrimitive`
in src/schema/schema.rs. -/
def validatePrimitive : Query → Except Error Unit
  | .all => .ok ()
  | .keys _ => .error (Error.invalid
      "Cannot deeply query a primitive value."
      "Try not querying specific properties of a primitive like `null` or `boolean`.")

/-- `Schema::get`, assembled from the per-variant `get` implementations in
src/schema/schema.rs (`SchemaNone` and the primitives resolve only the
empty pointer; `SchemaArray` delegates integer-string heads to `items`;
`SchemaObject` resolves the head against `properties`). -/
def Schema.get : Schema → List String → Option Schema
  | s, [] => some s
  | .array items, key :: rest =>
    if isIntegerKey key then
      match items with
      | some itemSchema => itemSchema.get rest
      | Option.none => Option.none
    else
      Option.none
  | .object props _ _, key :: rest =>
    match lookupProp props key with
    | some s => s.get rest
    | Option.none => Option.none
  | _, _ :: _ => Option.none

mutual

/-- `Schema::validate_query`, assembled from the per-variant
implementations of src/schema/schema.rs.  `SchemaNone` accepts anything;
primitives accept only `Query::All`; arrays and objects walk the keys of
a `Query::Keys` in order (the source iterates `keys()` and re-reads each
sub-query with `get(key).unwrap()`, which for a `LinearMap` — unique
keys — is the same as iterating the entries). -/
def Schema.validateQuery : Schema → Query → Except Error Unit
  | .none, _ => .ok ()
  | .null, q => validatePrimitive q
  | .boolean, q => validatePrimitive q
  | .number _ _ _ _ _, q => validatePrimitive q
  | .string _ _ _, q => validatePrimitive q
  | .enum _, q => validatePrimitive q
  | .array _, .all => .ok ()
  | .array items, .keys m => validateArrayKeys items m
  | .object _ _ _, .all => .ok ()
  | .object props _ addl, .keys m => validateObjectKeys props addl m
termination_by structural _ q => q

/-- The key loop of `SchemaArray::validate_query`
(`keys().map(...).find(is_err)` evaluated lazily: stop at the first
failing key). -/
def validateArrayKeys (items : Option Schema) : List (String × Query) → Except Error Unit
  | [] => .ok ()
  | (key, sub) :: rest =>
    if isIntegerKey key then
      match items with
      | some s =>
        match s.validateQuery sub with
        | .ok _ => validateArrayKeys items rest
        | .error e => .error e
      | Option.none => validateArrayKeys items rest
    else
      .error (Error.invalid
        ("Cannot query non-integer \"" ++ key ++ "\" array property.")
        "Only query integer array keys like 1, 2, and 3.")
termination_by structural m => m

/-- The key loop of `SchemaObject::validate_query`. -/
def validateObjectKeys (props : List (String × Schema)) (addl : Bool) : List (String × Query) → Except Error Unit
  | [] => .ok ()
  | (key, sub) :: rest =>
    match lookupProp props key with
    | some s =>
      match s.validateQuery sub with
      | .ok _ => validateObjectKeys props addl rest
      | .error e => .error e
    | Option.none =>
      if addl then
        validateObjectKeys props addl rest
      else
        .error (Error.invalid
          ("Cannot query object property \"" ++ key ++ "\".")
          "Query an object property that is defined in the schema.")
termination_by structural m => m

end

/-- `Driver::read_one` from src/driver/driver.rs, parameterised by the
driver's `read` capability and the type argument it forwards: collect the
values of `read` with no sort and `Range::new(None, Some(1))`; more than
one value is an internal error, none is a not-found error, otherwise the
single value is returned (`Vec::pop` takes the last element). -/
def read_one {τ : Type} (read : τ → Condition → List SortRule → Range → Query → Except Error (List Value))
    (type_ : τ) (condition : Condition) (query : Query) : Except Error Value :=
  match read type_ condition [] ⟨Option.none, some 1⟩ query with
  | .error e => .error e
  | .ok values =>
    if values.length > 1 then
      .error (Error.internal "Read with a limit of one returned more than one value.")
    else
      match values.getLast? with
      | some value => .ok value
      | Option.none => .error ⟨Code.notFound, "No value was found for the condition.", Option.none⟩

/-- Lookup in a BSON document (first binding of the key). -/
def docGet : List (String × Bson) → String → Option Bson
  | [], _ => Option.none
  | (k, v) :: rest, key => if k = key then some v else docGet rest key

/-- Inserting a list of entries one by one, in order. -/
def insertAll (doc : List (String × Bson)) (entries : List (String × Bson)) : List (String × Bson) :=
  entries.foldl (fun d kv => docInsert d kv.1 kv.2) doc

mutual

/-- Modelled from the spec: the flattening algorithm of §4.3 at one
addressed sub-condition — recurse through a nested `Keys` without
emitting anything, emit one entry holding the leaf translation at the
dot-joined path otherwise (`none` when that translation diverges). -/
def condEntriesOf (pointer : List String) : Condition → Option (List (String × Bson))
  | .keys m => condEntries pointer m
  | c =>
    match condition_to_filter c with
    | some b => some [(joinDot pointer, b)]
    | Option.none => Option.none

/-- Modelled from the spec: the flattening algorithm of §4.3 applied to a
`Condition::Keys` map — one entry per non-`Keys` leaf, at the dot-joined
path, holding the leaf's translation, in iteration order (`none` when
some leaf translation diverges). -/
def condEntries (pointer : List String) : List (String × Condition) → Option (List (String × Bson))
  | [] => some []
  | (key, cond) :: rest =>
    match condEntriesOf (pointer ++ [key]) cond with
    | some entries =>
      match condEntries pointer rest with
      | some entries2 => some (entries ++ entries2)
      | Option.none => Option.none
    | Option.none => Option.none

end

mutual

/-- Modelled from the spec: the flattening algorithm of §4.3 applied to a
`Query` — one inclusion entry (`path -> 1`) per non-`Keys` leaf, in
iteration order. -/
def leafEntries (pointer : List String) : Query → List (String × Bson)
  | .all => [(joinDot pointer, .i32 1)]
  | .keys m => leafEntriesList pointer m

/-- List form of `leafEntries` for the entries of a `Query::Keys` map. -/
def leafEntriesList (pointer : List String) : List (String × Query) → List (String × Bson)
  | [] => []
  | (key, sub) :: rest => leafEntries (pointer ++ [key]) sub ++ leafEntriesList pointer rest

end

/-- Modelled from the spec: the flattening of a `SortRule` list (§4.3) —
one entry per rule, keyed by the dot-joined property pointer, `-1` when
descending and `1` when ascending (MongoDB markers). -/
def sortEntries : List SortRule → List (String × Bson)
  | [] => []
  | rule :: rest =>
    (joinDot rule.property, .i32 (if rule.descending then -1 else 1)) :: sortEntries rest

/-- The keys of the top level of a `Query`. -/
def topKeys : Query → List String
  | .all => []
  | .keys m => m.map Prod.fst

/-- Modelled from the spec: per-key acceptance check of
`SchemaObject::validate_query` (§4.2): a declared property key is checked
by recursing into that property's schema, an undeclared key is accepted
exactly when `additionalProperties` is enabled and otherwise fails with a
`BadRequest` error naming the key. -/
def objKeyCheck (props : List (String × Schema)) (addl : Bool) (key : String) (sub : Query) : Except Error Unit :=
  match lookupProp props key with
  | some s => s.validateQuery sub
  | Option.none =>
    if addl then .ok ()
    else .error (Error.invalid
      ("Cannot query object property \"" ++ key ++ "\".")
      "Query an object property that is defined in the schema.")

/-- Modelled from the spec: per-key acceptance check of
`SchemaArray::validate_query` (§4.2): a non-digit key fails with a
`BadRequest` error naming it; a digit key recurses into the `items`
schema when one exists and is accepted outright otherwise. -/
def arrKeyCheck (items : Option Schema) (key : String) (sub : Query) : Except Error Unit :=
  if isIntegerKey key then
    match items with
    | some s => s.validateQuery sub
    | Option.none => .ok ()
  else
    .error (Error.invalid
      ("Cannot query non-integer \"" ++ key ++ "\" array property.")
      "Only query integer array keys like 1, 2, and 3.")

/-- First error of a list of results, `Ok` when there is none — the
`map(...).find(|r| r.is_err())` idiom of src/schema/schema.rs. -/
def findFirstErr : List (Except Error Unit) → Except Error Unit
  | [] => .ok ()
  | .error e :: _ => .error e
  | .ok _ :: rest => findFirstErr rest

/-- Number of entries of a BSON document (zero on any other BSON value). -/
def docLen : Bson → Nat
  | .document entries => entries.length
  | _ => 0

theorem docInsert_of_not_mem (doc : List (String × Bson)) (key : String) (val : Bson)
    (h : key ∉ doc.map Prod.fst) : docInsert doc key val = doc ++ [(key, val)] := by
  induction doc with
  | nil => rfl
  | cons kv rest ih =>
    obtain ⟨k, v⟩ := kv
    simp only [List.map_cons, List.mem_cons, not_or] at h
    simp [docInsert, Ne.symm h.1, ih h.2]

theorem insertAll_append (doc : List (String × Bson)) (l₁ l₂ : List (String × Bson)) :
    insertAll doc (l₁ ++ l₂) = insertAll (insertAll doc l₁) l₂ := by
  simp [insertAll, List.foldl_append]

theorem insertAll_fresh (l : List (String × Bson)) (doc : List (String × Bson))
    (hnd : (l.map Prod.fst).Nodup)
    (hf : ∀ k ∈ l.map Prod.fst, k ∉ doc.map Prod.fst) :
    insertAll doc l = doc ++ l := by
  induction l generalizing doc with
  | nil => simp [insertAll]
  | cons kv rest ih =>
    obtain ⟨k, v⟩ := kv
    simp only [List.map_cons, List.nodup_cons] at hnd
    have hk : k ∉ doc.map Prod.fst := hf k (by simp)
    have step : insertAll doc ((k, v) :: rest) = insertAll (doc ++ [(k, v)]) rest := by
      simp [insertAll, docInsert_of_not_mem doc k v hk]
    have hfresh : ∀ k' ∈ rest.map Prod.fst, k' ∉ (doc ++ [(k, v)]).map Prod.fst := by
      intro k' hk'
      simp only [List.map_append, List.mem_append, List.map_cons, List.map_nil, not_or]
      refine ⟨hf k' (by simp [hk']), ?_⟩
      simp only [List.mem_singleton]
      intro hcontra
      exact hnd.1 (hcontra ▸ hk')
    rw [step, ih (doc ++ [(k, v)]) hnd.2 hfresh]
    simp

theorem docGet_docInsert_ne (doc : List (String × Bson)) (k : String) (v : Bson) (key : String)
    (h : k ≠ key) : docGet (docInsert doc k v) key = docGet doc key := by
  induction doc with
  | nil => simp [docInsert, docGet, h]
  | cons kv rest ih =>
    obtain ⟨k', v'⟩ := kv
    by_cases hk : k' = k
    · subst hk
      simp [docInsert, docGet, h]
    · simp only [docInsert, if_neg hk]
      by_cases hkey : k' = key
      · simp [docGet, hkey]
      · simp [docGet, hkey, ih]

theorem docGet_insertAll (doc : List (String × Bson)) (l : List (String × Bson)) (key : String)
    (h : key ∉ l.map Prod.fst) : docGet (insertAll doc l) key = docGet doc key := by
  induction l generalizing doc with
  | nil => simp [insertAll]
  | cons kv rest ih =>
    obtain ⟨k, v⟩ := kv
    simp only [List.map_cons, List.mem_cons, not_or] at h
    have step : insertAll doc ((k, v) :: rest) = insertAll (docInsert doc k v) rest := rfl
    rw [step, ih _ h.2, docGet_docInsert_ne _ _ _ _ (fun hc => h.1 hc.symm)]

theorem string_data_append (a b : String) : (a ++ b).data = a.data ++ b.data := rfl

/-- A dot-joined pointer whose first component differs from `"_id"` never
equals `"_id"` (a join of two or more components contains a dot, and
`"_id"` does not). -/
theorem joinDot_cons_ne_id (k : String) (rest : List String) (h : k ≠ "_id") :
    joinDot (k :: rest) ≠ "_id" := by
  cases rest with
  | nil => simpa [joinDot] using h
  | cons r rs =>
    intro heq
    have hjoin : joinDot (k :: r :: rs) = k ++ "." ++ joinDot (r :: rs) := rfl
    have hdata : (k ++ "." ++ joinDot (r :: rs)).data = "_id".data := by
      rw [← hjoin, heq]
    have hmem : ('.' : Char) ∈ (k ++ "." ++ joinDot (r :: rs)).data := by
      rw [string_data_append, string_data_append]
      simp [String.data]
    rw [hdata] at hmem
    have : "_id".data = ['_', 'i', 'd'] := rfl
    rw [this] at hmem
    exact absurd hmem (by decide)

/-- `mapFilter` succeeds exactly when every operand's translation does,
producing the translations in order. -/
theorem mapFilter_some_iff (cs : List Condition) (bs : List Bson) :
    mapFilter cs = some bs ↔ cs.map condition_to_filter = bs.map some := by
  induction cs generalizing bs with
  | nil => cases bs <;> simp [mapFilter]
  | cons c rest ih =>
    cases hb : condition_to_filter c with
    | none =>
      cases bs with
      | nil => simp [mapFilter, hb]
      | cons b bs2 => simp [mapFilter, hb]
    | some b0 =>
      cases hrest : mapFilter rest with
      | none =>
        cases bs with
        | nil => simp [mapFilter, hb, hrest]
        | cons b bs2 => simp [mapFilter, hb, hrest, ← ih]
      | some bs0 =>
        cases bs with
        | nil => simp [mapFilter, hb, hrest]
        | cons b bs2 => simp [mapFilter, hb, hrest, ← ih]

mutual

/-- `qAddKeys` is `insertAll` of the spec-side flattening entries. -/
theorem qAddKeys_eq : (q : Query) → (doc : List (String × Bson)) → (pointer : List String) →
    qAddKeys doc pointer q = insertAll doc (leafEntries pointer q)
  | .all, _, _ => rfl
  | .keys m, doc, pointer => qAddKeysList_eq m doc pointer

/-- List form of `qAddKeys_eq`. -/
theorem qAddKeysList_eq : (m : List (String × Query)) → (doc : List (String × Bson)) → (pointer : List String) →
    qAddKeysList doc pointer m = insertAll doc (leafEntriesList pointer m)
  | [], _, _ => rfl
  | (key, sub) :: rest, doc, pointer => by
    calc qAddKeysList doc pointer ((key, sub) :: rest)
        = qAddKeysList (qAddKeys doc (pointer ++ [key]) sub) pointer rest := rfl
      _ = insertAll (qAddKeys doc (pointer ++ [key]) sub) (leafEntriesList pointer rest) :=
          qAddKeysList_eq rest _ pointer
      _ = insertAll (insertAll doc (leafEntries (pointer ++ [key]) sub)) (leafEntriesList pointer rest) := by
          rw [qAddKeys_eq sub doc (pointer ++ [key])]
      _ = insertAll doc (leafEntries (pointer ++ [key]) sub ++ leafEntriesList pointer rest) :=
          (insertAll_append doc _ _).symm
      _ = insertAll doc (leafEntriesList pointer ((key, sub) :: rest)) := rfl

end

/-- `addKeys` threads the document through `insertAll` of the spec-side
flattening entries, and diverges exactly when the flattening does. -/
theorem addKeys_eq : (m : List (String × Condition)) → (doc : List (String × Bson)) → (pointer : List String) →
    addKeys doc pointer m = (condEntries pointer m).map (fun es => insertAll doc es)
  | [], _, _ => rfl
  | (key, cond) :: rest, doc, pointer => by
    cases cond with
    | keys subKeys =>
      have ih1 := addKeys_eq subKeys doc (pointer ++ [key])
      cases hes : condEntries (pointer ++ [key]) subKeys with
      | none => simp [addKeys, condEntries, condEntriesOf, hes, ih1]
      | some es =>
        have ih2 := addKeys_eq rest (insertAll doc es) pointer
        cases hes2 : condEntries pointer rest with
        | none => simp [addKeys, condEntries, condEntriesOf, hes, hes2, ih1, ih2]
        | some es2 => simp [addKeys, condEntries, condEntriesOf, hes, hes2, ih1, ih2, insertAll_append]
    | «true» =>
      cases hb : condition_to_filter (Condition.true) with
      | none => simp [addKeys, condEntries, condEntriesOf, hb]
      | some b =>
        have ih2 := addKeys_eq rest (docInsert doc (joinDot (pointer ++ [key])) b) pointer
        cases hes2 : condEntries pointer rest with
        | none => simp [addKeys, condEntries, condEntriesOf, hb, hes2, ih2]
        | some es2 => simp [addKeys, condEntries, condEntriesOf, insertAll, hb, hes2, ih2]
    | «false» =>
      cases hb : condition_to_filter (Condition.false) with
      | none => simp [addKeys, condEntries, condEntriesOf, hb]
      | some b =>
        have ih2 := addKeys_eq rest (docInsert doc (joinDot (pointer ++ [key])) b) pointer
        cases hes2 : condEntries pointer rest with
        | none => simp [addKeys, condEntries, condEntriesOf, hb, hes2, ih2]
        | some es2 => simp [addKeys, condEntries, condEntriesOf, insertAll, hb, hes2, ih2]
    | not c =>
      cases hb : condition_to_filter (Condition.not c) with
      | none => simp [addKeys, condEntries, condEntriesOf, hb]
      | some b =>
        have ih2 := addKeys_eq rest (docInsert doc (joinDot (pointer ++ [key])) b) pointer
        cases hes2 : condEntries pointer rest with
        | none => simp [addKeys, condEntries, condEntriesOf, hb, hes2, ih2]
        | some es2 => simp [addKeys, condEntries, condEntriesOf, insertAll, hb, hes2, ih2]
    | and cs =>
      cases hb : condition_to_filter (Condition.and cs) with
      | none => simp [addKeys, condEntries, condEntriesOf, hb]
      | some b =>
        have ih2 := addKeys_eq rest (docInsert doc (joinDot (pointer ++ [key])) b) pointer
        cases hes2 : condEntries pointer rest with
        | none => simp [addKeys, condEntries, condEntriesOf, hb, hes2, ih2]
        | some es2 => simp [addKeys, condEntries, condEntriesOf, insertAll, hb, hes2, ih2]
    | or cs =>
      cases hb : condition_to_filter (Condition.or cs) with
      | none => simp [addKeys, condEntries, condEntriesOf, hb]
      | some b =>
        have ih2 := addKeys_eq rest (docInsert doc (joinDot (pointer ++ [key])) b) pointer
        cases hes2 : condEntries pointer rest with
        | none => simp [addKeys, condEntries, condEntriesOf, hb, hes2, ih2]
        | some es2 => simp [addKeys, condEntries, condEntriesOf, insertAll, hb, hes2, ih2]
    | equal v =>
      cases hb : condition_to_filter (Condition.equal v) with
      | none => simp [addKeys, condEntries, condEntriesOf, hb]
      | some b =>
        have ih2 := addKeys_eq rest (docInsert doc (joinDot (pointer ++ [key])) b) pointer
        cases hes2 : condEntries pointer rest with
        | none => simp [addKeys, condEntries, condEntriesOf, hb, hes2, ih2]
        | some es2 => simp [addKeys, condEntries, condEntriesOf, insertAll, hb, hes2, ih2]

/-- `sortInsert` is `insertAll` of the spec-side sort entries. -/
theorem sortInsert_eq (rules : List SortRule) (doc : List (String × Bson)) :
    sortInsert doc rules = insertAll doc (sortEntries rules) := by
  induction rules generalizing doc with
  | nil => rfl
  | cons rule rest ih =>
    calc sortInsert doc (rule :: rest)
        = sortInsert (docInsert doc (joinDot rule.property) (.i32 (if rule.descending then -1 else 1))) rest := rfl
      _ = insertAll (docInsert doc (joinDot rule.property) (.i32 (if rule.descending then -1 else 1))) (sortEntries rest) := ih _
      _ = insertAll doc (sortEntries (rule :: rest)) := rfl

mutual

/-- Every path emitted by the query flattening extends its pointer
prefix. -/
theorem leafEntries_path_shape : (q : Query) → (pointer : List String) →
    ∀ p ∈ (leafEntries pointer q).map Prod.fst, ∃ ext, p = joinDot (pointer ++ ext)
  | .all, pointer => by
    intro p hp
    simp only [leafEntries, List.map_cons, List.map_nil, List.mem_singleton] at hp
    exact ⟨[], by simp [hp]⟩
  | .keys m, pointer => leafEntriesList_path_shape m pointer

/-- List form of `leafEntries_path_shape`. -/
theorem leafEntriesList_path_shape : (m : List (String × Query)) → (pointer : List String) →
    ∀ p ∈ (leafEntriesList pointer m).map Prod.fst, ∃ ext, p = joinDot (pointer ++ ext)
  | [], pointer => by simp [leafEntriesList]
  | (key, sub) :: rest, pointer => by
    intro p hp
    simp only [leafEntriesList, List.map_append, List.mem_append] at hp
    rcases hp with hp | hp
    · obtain ⟨ext, hext⟩ := leafEntries_path_shape sub (pointer ++ [key]) p hp
      exact ⟨key :: ext, by simpa [List.append_assoc] using hext⟩
    · exact leafEntriesList_path_shape rest pointer p hp

end

/-- When no top-level key of the map is `"_id"`, the flattened query
entries never use the path `"_id"`. -/
theorem leafEntriesList_not_id (m : List (String × Query)) (h : "_id" ∉ m.map Prod.fst) :
    "_id" ∉ (leafEntriesList [] m).map Prod.fst := by
  induction m with
  | nil => simp [leafEntriesList]
  | cons kq rest ih =>
    obtain ⟨key, sub⟩ := kq
    simp only [List.map_cons, List.mem_cons, not_or] at h
    simp only [leafEntriesList, List.map_append, List.mem_append, not_or]
    refine ⟨?_, ih h.2⟩
    intro hp
    obtain ⟨ext, hext⟩ := leafEntries_path_shape sub ([] ++ [key]) "_id" hp
    exact joinDot_cons_ne_id key ext (Ne.symm h.1) hext.symm

/-- `SchemaObject::validate_query` on `Query::Keys` returns the first
failing per-key check. -/
theorem validateObjectKeys_eq (props : List (String × Schema)) (addl : Bool) (m : List (String × Query)) :
    validateObjectKeys props addl m = findFirstErr (m.map fun kq => objKeyCheck props addl kq.1 kq.2) := by
  induction m with
  | nil => rfl
  | cons kq rest ih =>
    obtain ⟨key, sub⟩ := kq
    cases hlk : lookupProp props key with
    | some s =>
      cases hv : s.validateQuery sub with
      | ok u => simp [validateObjectKeys, objKeyCheck, hlk, hv, findFirstErr, ih]
      | error e => simp [validateObjectKeys, objKeyCheck, hlk, hv, findFirstErr]
    | none =>
      cases addl with
      | true => simp [validateObjectKeys, objKeyCheck, hlk, findFirstErr, ih]
      | false => simp [validateObjectKeys, objKeyCheck, hlk, findFirstErr]

/-- `SchemaArray::validate_query` on `Query::Keys` returns the first
failing per-key check. -/
theorem validateArrayKeys_eq (items : Option Schema) (m : List (String × Query)) :
    validateArrayKeys items m = findFirstErr (m.map fun kq => arrKeyCheck items kq.1 kq.2) := by
  induction m with
  | nil => rfl
  | cons kq rest ih =>
    obtain ⟨key, sub⟩ := kq
    cases hik : isIntegerKey key with
    | true =>
      cases items with
      | some s =>
        cases hv : s.validateQuery sub with
        | ok u => simp [validateArrayKeys, arrKeyCheck, hik, hv, findFirstErr, ih]
        | error e => simp [validateArrayKeys, arrKeyCheck, hik, hv, findFirstErr]
      | none => simp [validateArrayKeys, arrKeyCheck, hik, findFirstErr, ih]
    | false => simp [validateArrayKeys, arrKeyCheck, hik, findFirstErr]

/-- C7: for every schema variant (None, Null, Boolean, Number, String,
Enum, Array with or without items, Object with any properties),
`validate_query` accepts `Query::All`. -/
theorem c7_validate_all (s : Schema) : s.validateQuery Query.all = .ok () := by
  cases s <;> rfl

/-- C5: for every primitive schema and every query that is not
`Query::All`, `validate_query` fails with a `BadRequest` error carrying a
hint whose message contains the phrase "deeply query". -/
theorem c5_primitive_deep_query (s : Schema) (q : Query)
    (hp : isPrimitive s = Bool.true) (hq : q ≠ Query.all) :
    ∃ e, s.validateQuery q = .error e ∧ e.code = Code.badRequest ∧ e.hint.isSome = Bool.true ∧
      ∃ pre post, e.message = pre ++ "deeply query" ++ post := by
  cases q with
  | all => exact absurd rfl hq
  | keys m =>
    cases s with
    | none => simp [isPrimitive] at hp
    | array items => simp [isPrimitive] at hp
    | object props req addl => simp [isPrimitive] at hp
    | null => exact ⟨_, rfl, rfl, rfl, "Cannot ", " a primitive value.", rfl⟩
    | boolean => exact ⟨_, rfl, rfl, rfl, "Cannot ", " a primitive value.", rfl⟩
    | number a b c d e => exact ⟨_, rfl, rfl, rfl, "Cannot ", " a primitive value.", rfl⟩
    | string a b c => exact ⟨_, rfl, rfl, rfl, "Cannot ", " a primitive value.", rfl⟩
    | enum vs => exact ⟨_, rfl, rfl, rfl, "Cannot ", " a primitive value.", rfl⟩

/-- Witness for C5 at the Boolean schema and an empty `Keys` query. -/
theorem c5_primitive_deep_query_witness :
    ∃ e, Schema.validateQuery Schema.boolean (Query.keys []) = .error e ∧
      e.code = Code.badRequest ∧ e.hint.isSome = Bool.true ∧
      ∃ pre post, e.message = pre ++ "deeply query" ++ post :=
  c5_primitive_deep_query Schema.boolean (Query.keys []) rfl (fun h => Query.noConfusion h)

/-- C3: object schema query validation checks a declared key by recursing
into that property's schema, accepts an undeclared key exactly when
`additionalProperties` is enabled and otherwise fails with a `BadRequest`
error naming the key; the result of a `Keys` query is the error of the
first failing key in iteration order (no aggregation). -/
theorem c3_object_validate_query :
    (∀ props req addl m, Schema.validateQuery (Schema.object props req addl) (Query.keys m) =
        findFirstErr (m.map fun kq => objKeyCheck props addl kq.1 kq.2))
    ∧ (∀ props addl key sub s, lookupProp props key = some s →
        objKeyCheck props addl key sub = s.validateQuery sub)
    ∧ (∀ props addl key sub, lookupProp props key = Option.none →
        (objKeyCheck props addl key sub = .ok () ↔ addl = Bool.true))
    ∧ (∀ props key sub, lookupProp props key = Option.none →
        ∃ e, objKeyCheck props Bool.false key sub = .error e ∧ e.code = Code.badRequest ∧
          ∃ pre post, e.message = pre ++ key ++ post) := by
  refine ⟨?_, ?_, ?_, ?_⟩
  · intro props req addl m
    exact validateObjectKeys_eq props addl m
  · intro props addl key sub s h
    simp [objKeyCheck, h]
  · intro props addl key sub h
    cases addl with
    | true => simp [objKeyCheck, h]
    | false => simp [objKeyCheck, h]
  · intro props key sub h
    refine ⟨Error.invalid ("Cannot query object property \"" ++ key ++ "\".")
        "Query an object property that is defined in the schema.",
      ?_, rfl, "Cannot query object property \"", "\".", rfl⟩
    simp [objKeyCheck, h]

/-- Witness for C3 at the spec's object example (declared properties
hello, world, 5, goodbye; query names hello and the undeclared moon). -/
theorem c3_object_validate_query_witness :
    Schema.validateQuery
        (Schema.object [("hello", Schema.boolean), ("world", Schema.boolean),
          ("5", Schema.boolean), ("goodbye", Schema.boolean)] [] Bool.false)
        (Query.keys [("hello", Query.all), ("moon", Query.all)]) =
      findFirstErr ([("hello", Query.all), ("moon", Query.all)].map fun kq =>
        objKeyCheck [("hello", Schema.boolean), ("world", Schema.boolean),
          ("5", Schema.boolean), ("goodbye", Schema.boolean)] Bool.false kq.1 kq.2)
    ∧ ∃ e, objKeyCheck [("hello", Schema.boolean)] Bool.false "moon" Query.all = .error e ∧
        e.code = Code.badRequest ∧ ∃ pre post, e.message = pre ++ "moon" ++ post :=
  ⟨c3_object_validate_query.1 _ [] _ _,
   c3_object_validate_query.2.2.2 [("hello", Schema.boolean)] "moon" Query.all rfl⟩

/-- C4: array schema query validation fails with a `BadRequest` error
naming any key that is not a string of decimal digits; every all-digit
key, regardless of magnitude, is checked against the items schema when
one exists and accepted with any sub-query otherwise; the result of a
`Keys` query is the error of the first failing key in iteration order. -/
theorem c4_array_validate_query :
    (∀ items m, Schema.validateQuery (Schema.array items) (Query.keys m) =
        findFirstErr (m.map fun kq => arrKeyCheck items kq.1 kq.2))
    ∧ (∀ items key sub, isIntegerKey key = Bool.false →
        ∃ e, arrKeyCheck items key sub = .error e ∧ e.code = Code.badRequest ∧
          ∃ pre post, e.message = pre ++ key ++ post)
    ∧ (∀ s key sub, isIntegerKey key = Bool.true →
        arrKeyCheck (some s) key sub = s.validateQuery sub)
    ∧ (∀ key sub, isIntegerKey key = Bool.true →
        arrKeyCheck Option.none key sub = .ok ())
    ∧ Schema.validateQuery (Schema.array (some Schema.boolean))
        (Query.keys [("1", Query.all), ("9999999", Query.all)]) = .ok () := by
  refine ⟨?_, ?_, ?_, ?_, rfl⟩
  · intro items m
    exact validateArrayKeys_eq items m
  · intro items key sub h
    refine ⟨Error.invalid ("Cannot query non-integer \"" ++ key ++ "\" array property.")
        "Only query integer array keys like 1, 2, and 3.",
      ?_, rfl, "Cannot query non-integer \"", "\" array property.", rfl⟩
    simp [arrKeyCheck, h]
  · intro s key sub h
    simp [arrKeyCheck, h]
  · intro key sub h
    simp [arrKeyCheck, h]

/-- Witness for C4 at the spec's array examples (non-integer key
"hello"; large integer key "9999999"). -/
theorem c4_array_validate_query_witness :
    (∃ e, arrKeyCheck Option.none "hello" Query.all = .error e ∧ e.code = Code.badRequest ∧
        ∃ pre post, e.message = pre ++ "hello" ++ post)
    ∧ arrKeyCheck (some Schema.boolean) "9999999" Query.all =
        Schema.validateQuery Schema.boolean Query.all :=
  ⟨c4_array_validate_query.2.1 Option.none "hello" Query.all rfl,
   c4_array_validate_query.2.2.1 Schema.boolean "9999999" Query.all rfl⟩

/-- C6: `Schema::get` returns the schema itself at the empty pointer; an
Object resolves the first key only against declared properties (nothing
for an undeclared key even with `additionalProperties`); an Array
delegates an all-digit first component to its items schema irrespective
of the index value (nothing when items is absent) and rejects non-digit
components; primitives and None resolve no non-empty pointer. -/
theorem c6_schema_get :
    (∀ s, Schema.get s [] = some s)
    ∧ (∀ props req addl key p s, lookupProp props key = some s →
        Schema.get (Schema.object props req addl) (key :: p) = s.get p)
    ∧ (∀ props req addl key p, lookupProp props key = Option.none →
        Schema.get (Schema.object props req addl) (key :: p) = Option.none)
    ∧ (∀ s key p, isIntegerKey key = Bool.true →
        Schema.get (Schema.array (some s)) (key :: p) = s.get p)
    ∧ (∀ key p, isIntegerKey key = Bool.true →
        Schema.get (Schema.array Option.none) (key :: p) = Option.none)
    ∧ (∀ items key p, isIntegerKey key = Bool.false →
        Schema.get (Schema.array items) (key :: p) = Option.none)
    ∧ (∀ s key p, isPrimitive s = Bool.true ∨ s = Schema.none →
        Schema.get s (key :: p) = Option.none) := by
  refine ⟨?_, ?_, ?_, ?_, ?_, ?_, ?_⟩
  · intro s; cases s <;> rfl
  · intro props req addl key p s h; simp [Schema.get, h]
  · intro props req addl key p h; simp [Schema.get, h]
  · intro s key p h; simp [Schema.get, h]
  · intro key p h; simp [Schema.get, h]
  · intro items key p h; simp [Schema.get, h]
  · intro s key p h
    rcases h with h | h
    · cases s with
      | null => rfl
      | boolean => rfl
      | number a b c d e => rfl
      | string a b c => rfl
      | enum vs => rfl
      | none => simp [isPrimitive] at h
      | array items => simp [isPrimitive] at h
      | object a b c => simp [isPrimitive] at h
    · subst h; rfl

/-- Witness for C6: a declared object property and a large array index
both resolve to the child schema. -/
theorem c6_schema_get_witness :
    Schema.get (Schema.object [("hello", Schema.boolean)] [] Bool.false) ["hello"] =
        Schema.get Schema.boolean []
    ∧ Schema.get (Schema.array (some Schema.boolean)) ["9999999"] = Schema.get Schema.boolean [] :=
  ⟨c6_schema_get.2.1 [("hello", Schema.boolean)] [] Bool.false "hello" [] Schema.boolean rfl,
   c6_schema_get.2.2.2.1 Schema.boolean "9999999" [] rfl⟩

/-- C9: `read_one` consults `read` only through the call with the given
type, condition and query, an empty sort list and `Range{skip: none,
limit: 1}`; zero values yield a `NotFound` error, a single value is
returned, more than one value yields an `Internal` error, and a `read`
failure propagates. -/
theorem c9_read_one {τ : Type}
    (r : τ → Condition → List SortRule → Range → Query → Except Error (List Value))
    (t : τ) (c : Condition) (q : Query) :
    (∀ r', r t c [] ⟨Option.none, some 1⟩ q = r' t c [] ⟨Option.none, some 1⟩ q →
        read_one r t c q = read_one r' t c q)
    ∧ (∀ e, r t c [] ⟨Option.none, some 1⟩ q = .error e → read_one r t c q = .error e)
    ∧ (r t c [] ⟨Option.none, some 1⟩ q = .ok [] →
        read_one r t c q = .error ⟨Code.notFound, "No value was found for the condition.", Option.none⟩)
    ∧ (∀ v, r t c [] ⟨Option.none, some 1⟩ q = .ok [v] → read_one r t c q = .ok v)
    ∧ (∀ vs, r t c [] ⟨Option.none, some 1⟩ q = .ok vs → vs.length > 1 →
        ∃ e, read_one r t c q = .error e ∧ e.code = Code.internal) := by
  refine ⟨?_, ?_, ?_, ?_, ?_⟩
  · intro r' h
    unfold read_one
    rw [h]
  · intro e h
    unfold read_one
    rw [h]
  · intro h
    unfold read_one
    rw [h]
    rfl
  · intro v h
    unfold read_one
    rw [h]
    rfl
  · intro vs h hlen
    refine ⟨Error.internal "Read with a limit of one returned more than one value.", ?_, rfl⟩
    unfold read_one
    rw [h]
    exact if_pos hlen

/-- Witness for C9: a backend returning exactly one value makes
`read_one` return it. -/
theorem c9_read_one_witness :
    read_one (fun (_ : Unit) (_ : Condition) (_ : List SortRule) (_ : Range) (_ : Query) =>
        (Except.ok [Value.null] : Except Error (List Value))) () Condition.true Query.all =
      Except.ok Value.null :=
  (c9_read_one _ () Condition.true Query.all).2.2.2.1 Value.null rfl

/-- C10: the projection always carries the exclusion entry `_id -> 0`
whenever the query's top level does not itself name `_id`; `Query::All`
projects to exactly that single entry. -/
theorem c10_projection_id_excluded :
    query_to_projection Query.all = Bson.document [("_id", Bson.i32 0)]
    ∧ (∀ q, "_id" ∉ topKeys q →
        ∃ d, query_to_projection q = Bson.document d ∧ docGet d "_id" = some (Bson.i32 0)) := by
  refine ⟨rfl, ?_⟩
  intro q hq
  cases q with
  | all => exact ⟨[("_id", Bson.i32 0)], rfl, rfl⟩
  | keys m =>
    refine ⟨qAddKeysList (docInsert [] "_id" (Bson.i32 0)) [] m, rfl, ?_⟩
    rw [qAddKeysList_eq m _ []]
    rw [docGet_insertAll _ _ _ (leafEntriesList_not_id m (by simpa [topKeys] using hq))]
    rfl

/-- Witness for C10 at a one-key query. -/
theorem c10_projection_id_excluded_witness :
    ∃ d, query_to_projection (Query.keys [("a", Query.all)]) = Bson.document d ∧
      docGet d "_id" = some (Bson.i32 0) :=
  c10_projection_id_excluded.2 (Query.keys [("a", Query.all)]) (by decide)

/-- C1 (amended): `condition_to_filter` translates the boolean
connectives structurally — each composite succeeds exactly when its
operands' translations do (translation of an `Equal` leaf whose value is
or contains an object diverges, since the source's `Into<Bson>` object
arm is unconditional self-recursion) — and flattens a `Condition::Keys`
whose leaf translations are all defined into one document holding the
leaf translation at the dot-joined path of every leaf, in iteration
order, provided those paths are pairwise distinct (a duplicated path
collapses into a single entry); the spec's example translates as
claimed. -/
theorem c1_condition_translation :
    condition_to_filter Condition.true = some (Bson.document [("$where", Bson.string "true")])
    ∧ condition_to_filter Condition.false = some (Bson.document [("$where", Bson.string "false")])
    ∧ (∀ c, condition_to_filter (Condition.not c) =
        (condition_to_filter c).map fun b => Bson.document [("$not", b)])
    ∧ (∀ cs, condition_to_filter (Condition.and cs) =
        (mapFilter cs).map fun bs => Bson.document [("$and", Bson.array bs)])
    ∧ (∀ cs, condition_to_filter (Condition.or cs) =
        (mapFilter cs).map fun bs => Bson.document [("$or", Bson.array bs)])
    ∧ (∀ cs bs, mapFilter cs = some bs ↔ cs.map condition_to_filter = bs.map some)
    ∧ (∀ v, condition_to_filter (Condition.equal v) =
        v.toBson.map fun b => Bson.document [("$eq", b)])
    ∧ (∀ m es, condEntries [] m = some es → (es.map Prod.fst).Nodup →
        condition_to_filter (Condition.keys m) = some (Bson.document es))
    ∧ condition_to_filter (Condition.or [Condition.true, Condition.false,
        Condition.and [Condition.not (Condition.equal (Value.string "hello")),
          Condition.equal (Value.i64 42)],
        Condition.keys [("a", Condition.false),
          ("b", Condition.keys [("c", Condition.equal (Value.i64 4)),
            ("d", Condition.keys [("e", Condition.true)])])]])
      = some (Bson.document [("$or", Bson.array [
          Bson.document [("$where", Bson.string "true")],
          Bson.document [("$where", Bson.string "false")],
          Bson.document [("$and", Bson.array [
            Bson.document [("$not", Bson.document [("$eq", Bson.string "hello")])],
            Bson.document [("$eq", Bson.i64 42)]])],
          Bson.document [("a", Bson.document [("$where", Bson.string "false")]),
            ("b.c", Bson.document [("$eq", Bson.i64 4)]),
            ("b.d.e", Bson.document [("$where", Bson.string "true")])]])]) := by
  refine ⟨rfl, rfl, ?_, ?_, ?_, mapFilter_some_iff, ?_, ?_, rfl⟩
  · intro c
    cases h : condition_to_filter c <;> simp [condition_to_filter, h]
  · intro cs
    cases h : mapFilter cs <;> simp [condition_to_filter, h]
  · intro cs
    cases h : mapFilter cs <;> simp [condition_to_filter, h]
  · intro v
    cases h : v.toBson <;> simp [condition_to_filter, h]
  · intro m es hes hnd
    have h1 := addKeys_eq m [] []
    rw [hes] at h1
    simp only [Option.map] at h1
    have h2 : insertAll [] es = es := by
      have := insertAll_fresh es [] hnd (by simp)
      simpa using this
    rw [h2] at h1
    simp [condition_to_filter, h1]

/-- Witness for C1 at the `Keys` branch of the spec's example. -/
theorem c1_condition_translation_witness :
    condition_to_filter (Condition.keys [("a", Condition.false),
        ("b", Condition.keys [("c", Condition.equal (Value.i64 4)),
          ("d", Condition.keys [("e", Condition.true)])])])
      = some (Bson.document [("a", Bson.document [("$where", Bson.string "false")]),
          ("b.c", Bson.document [("$eq", Bson.i64 4)]),
          ("b.d.e", Bson.document [("$where", Bson.string "true")])]) :=
  c1_condition_translation.2.2.2.2.2.2.2.1 _
    [("a", Bson.document [("$where", Bson.string "false")]),
     ("b.c", Bson.document [("$eq", Bson.i64 4)]),
     ("b.d.e", Bson.document [("$where", Bson.string "true")])]
    rfl (by decide)

/-- Counterexample for C1 as stated: with the colliding dot-joined paths
of keys `"a.b"` and `a`→`b`, the filter document holds a single entry
where the per-leaf flattening describes two; and the translation of an
`Equal` leaf holding an object value produces no filter at all (the
source diverges there). -/
theorem c1_flatten_counterexample :
    (condition_to_filter (Condition.keys [("a.b", Condition.true),
        ("a", Condition.keys [("b", Condition.false)])])
      ≠ (condEntries [] [("a.b", Condition.true),
          ("a", Condition.keys [("b", Condition.false)])]).map Bson.document)
    ∧ condition_to_filter (Condition.equal (Value.object [])) = Option.none := by
  constructor
  · intro h
    have h2 : (1 : Nat) = 2 :=
      congrArg (fun ob : Option Bson => docLen (ob.getD Bson.null)) h
    exact absurd h2 (by decide)
  · rfl

/-- C2 (amended): the projection of a `Query::Keys` is the `_id`
exclusion entry followed by one inclusion entry per non-`Keys` leaf at
its dot-joined path, in iteration order, provided the leaf paths are
pairwise distinct and none equals `_id`; the spec's example flattens to
exactly the paths a, c.d, c.e.f.g, c.e.h. -/
theorem c2_query_projection :
    (∀ m, ((leafEntriesList [] m).map Prod.fst).Nodup →
        "_id" ∉ (leafEntriesList [] m).map Prod.fst →
        query_to_projection (Query.keys m) =
          Bson.document (("_id", Bson.i32 0) :: leafEntriesList [] m))
    ∧ query_to_projection (Query.keys [("a", Query.all),
        ("c", Query.keys [("d", Query.all),
          ("e", Query.keys [("f", Query.keys [("g", Query.all)]), ("h", Query.all)])])])
      = Bson.document [("_id", Bson.i32 0), ("a", Bson.i32 1), ("c.d", Bson.i32 1),
          ("c.e.f.g", Bson.i32 1), ("c.e.h", Bson.i32 1)] := by
  refine ⟨?_, rfl⟩
  intro m hnd hid
  have hfr : ∀ k ∈ (leafEntriesList [] m).map Prod.fst,
      k ∉ ([("_id", Bson.i32 0)] : List (String × Bson)).map Prod.fst := by
    intro k hk
    simp only [List.map_cons, List.map_nil, List.mem_singleton]
    intro hcontra
    exact hid (hcontra ▸ hk)
  calc query_to_projection (Query.keys m)
      = Bson.document (qAddKeysList (docInsert [] "_id" (Bson.i32 0)) [] m) := rfl
    _ = Bson.document (insertAll [("_id", Bson.i32 0)] (leafEntriesList [] m)) := by
        rw [qAddKeysList_eq m _ []]
        rfl
    _ = Bson.document ([("_id", Bson.i32 0)] ++ leafEntriesList [] m) := by
        rw [insertAll_fresh _ _ hnd hfr]
    _ = Bson.document (("_id", Bson.i32 0) :: leafEntriesList [] m) := rfl

/-- Witness for C2 at the spec's example query. -/
theorem c2_query_projection_witness :
    query_to_projection (Query.keys [("a", Query.all),
        ("c", Query.keys [("d", Query.all),
          ("e", Query.keys [("f", Query.keys [("g", Query.all)]), ("h", Query.all)])])])
      = Bson.document (("_id", Bson.i32 0) :: leafEntriesList [] [("a", Query.all),
          ("c", Query.keys [("d", Query.all),
            ("e", Query.keys [("f", Query.keys [("g", Query.all)]), ("h", Query.all)])])]) :=
  c2_query_projection.1 _ (by decide) (by decide)

/-- Counterexample for C2 as stated: with the colliding dot-joined paths
of keys `"a.b"` and `a`→`b`, the projection document holds one inclusion
entry where the per-leaf flattening describes two. -/
theorem c2_projection_counterexample :
    query_to_projection (Query.keys [("a.b", Query.all), ("a", Query.keys [("b", Query.all)])])
      ≠ Bson.document (("_id", Bson.i32 0) ::
          leafEntriesList [] [("a.b", Query.all), ("a", Query.keys [("b", Query.all)])]) := by
  intro h
  have h2 : (2 : Nat) = 3 := congrArg docLen h
  exact absurd h2 (by decide)

/-- C8 (amended): `sort_rules_to_sort` emits one entry per rule in list
order, keyed by the rule's dot-joined property pointer, `-1` when
descending and `1` when ascending, provided the joined pointers are
pairwise distinct (a repeated pointer collapses into a single entry);
the spec's example flattens as claimed. -/
theorem c8_sort_flattening :
    (∀ rules, sortEntries rules =
        rules.map fun r => (joinDot r.property, Bson.i32 (if r.descending then -1 else 1)))
    ∧ (∀ rules, ((sortEntries rules).map Prod.fst).Nodup →
        sort_rules_to_sort rules = Bson.document (sortEntries rules))
    ∧ sort_rules_to_sort [⟨["hello", "world"], Bool.true⟩, ⟨["a"], Bool.false⟩]
      = Bson.document [("hello.world", Bson.i32 (-1)), ("a", Bson.i32 1)] := by
  refine ⟨?_, ?_, rfl⟩
  · intro rules
    induction rules with
    | nil => rfl
    | cons rule rest ih => simp [sortEntries, ih]
  · intro rules h
    calc sort_rules_to_sort rules
        = Bson.document (sortInsert [] rules) := rfl
      _ = Bson.document (insertAll [] (sortEntries rules)) := by rw [sortInsert_eq]
      _ = Bson.document ([] ++ sortEntries rules) := by
          rw [insertAll_fresh _ _ h (by simp)]
      _ = Bson.document (sortEntries rules) := by simp

/-- Witness for C8 at the spec's example rules. -/
theorem c8_sort_flattening_witness :
    sort_rules_to_sort [⟨["hello", "world"], Bool.true⟩, ⟨["a"], Bool.false⟩]
      = Bson.document (sortEntries [⟨["hello", "world"], Bool.true⟩, ⟨["a"], Bool.false⟩]) :=
  c8_sort_flattening.2.1 _ (by decide)

/-- Counterexample for C8 as stated: two rules over the same property
pointer collapse into a single entry, not one entry per rule. -/
theorem c8_sort_counterexample :
    sort_rules_to_sort [⟨["a"], Bool.true⟩, ⟨["a"], Bool.false⟩]
      ≠ Bson.document (sortEntries [⟨["a"], Bool.true⟩, ⟨["a"], Bool.false⟩]) := by
  intro h
  have h2 : (1 : Nat) = 2 := congrArg docLen h
  exact absurd h2 (by decide)

end Ardite
